import Mathlib

/-!
# Vec3 and Matrix44 of `scratchapixel/cpp/gemory.cpp`

A shallow embedding of the two class templates of `gemory.cpp`, generic in the
scalar type `T` as the templates are, and the properties of the numeric
contract proved over it.

* The arithmetic of `T` (`+`, `-`, `*`, `<`, the literals `0` and `1`) is taken
  from type classes, so every definition runs on any scalar type that has them.
* `sqrt` is not defined in the source file: it is a parameter of `length` and
  `normalize`.
* The division `1 / len` of `normalize` is a parameter too, and it may fail
  (`Option`): a run of `normalize` that divided by zero returns `none`.
* The `uint8_t` loop counters of `Matrix44::operator*` are natural numbers
  incremented modulo `256`. `mul` indexes `m` with indices proved in range by
  the loop conditions; `mulChecked` runs the same loops with every access
  checked and the iterations counted.
* The output stream of `operator <<` is the text written to it so far, and the
  insertion of one scalar is a parameter.
* `Flt` is the finite part of IEEE 754 binary arithmetic (`binary32` is the
  `float` of `Vec3f`): every operation is the exact one followed by rounding to
  nearest, ties to even, with gradual underflow. The templates are evaluated
  on it where a property depends on rounding.
-/

/-! ## Vec3 -/

/-- The class template `Vec3<T>`: the three public members `T x, y, z`. -/
structure Vec3 (T : Type) where
  x : T
  y : T
  z : T
deriving DecidableEq, Repr

namespace Vec3

variable {T : Type}

/-- The constructor `Vec3() : x(T(0)), y(T(0)), z(T(0)) {}`. -/
def ctorDefault [OfNat T 0] : Vec3 T :=
  ⟨0, 0, 0⟩

/-- The constructor `Vec3(const T &xx) : x(xx), y(xx), z(xx) {}`. -/
def ctorUniform (xx : T) : Vec3 T :=
  ⟨xx, xx, xx⟩

/-- The constructor `Vec3(T xx, T yy, T zz) : x(xx), y(yy), z(zz) {}`. -/
def ctor (xx yy zz : T) : Vec3 T :=
  ⟨xx, yy, zz⟩

/-- The method `operator + (const Vec3<T> &v) const`. -/
def add [Add T] (a v : Vec3 T) : Vec3 T :=
  ctor (a.x + v.x) (a.y + v.y) (a.z + v.z)

/-- The method `operator - (const Vec3<T> &v) const`. -/
def sub [Sub T] (a v : Vec3 T) : Vec3 T :=
  ctor (a.x - v.x) (a.y - v.y) (a.z - v.z)

/-- The method `operator * (const T &r) const`: the scalar stands on the right. -/
def scale [Mul T] (a : Vec3 T) (r : T) : Vec3 T :=
  ctor (a.x * r) (a.y * r) (a.z * r)

/-- The method `T dotProduct(const Vec3<T> &v) const`. -/
def dotProduct [Add T] [Mul T] (a v : Vec3 T) : T :=
  a.x * v.x + a.y * v.y + a.z * v.z

/-- The method `T length()`: `sqrt(x * x + y * y + z * z)`, with the square root supplied
by the caller. -/
def length [Add T] [Mul T] (sqrt : T → T) (a : Vec3 T) : T :=
  sqrt (a.x * a.x + a.y * a.y + a.z * a.z)

/-- The method `Vec3<T>& normalize()`. It mutates `*this` and returns a reference
to it: the result is the pair of the value read through the returned reference
and the state of `*this` after the call. The division `1 / len` is the
parameter `div`; where it fails the run is `none`. The three compound
assignments `x *= invLen, y *= invLen, z *= invLen` are done in order. -/
def normalize [Add T] [Mul T] [LT T] [DecidableRel (fun a b : T => a < b)]
    [OfNat T 0] [OfNat T 1]
    (sqrt : T → T) (div : T → T → Option T) (a : Vec3 T) : Option (Vec3 T × Vec3 T) :=
  let len := a.length sqrt
  if (0 : T) < len then
    match div 1 len with
    | none => none
    | some invLen =>
      let a1 : Vec3 T := { a with x := a.x * invLen }
      let a2 : Vec3 T := { a1 with y := a1.y * invLen }
      let a3 : Vec3 T := { a2 with z := a2.z * invLen }
      some (a3, a3)
  else
    some (a, a)

/-- The method `Vec3<T> cross(const Vec3<T> &v) const`. -/
def cross [Sub T] [Mul T] (a v : Vec3 T) : Vec3 T :=
  ctor (a.y * v.z - a.z * v.y) (a.z * v.x - a.x * v.z) (a.x * v.y - a.y * v.x)

/-- The cross product as the specification writes it, for `a = (x1,y1,z1)` and
`b = (x2,y2,z2)`: `(y1·z2 − z1·y2, z1·x2 − x1·z2, x1·y2 − y1·x2)`. -/
def crossSpec [Sub T] [Mul T] (a b : Vec3 T) : Vec3 T :=
  match a, b with
  | ⟨x1, y1, z1⟩, ⟨x2, y2, z2⟩ => ⟨y1 * z2 - z1 * y2, z1 * x2 - x1 * z2, x1 * y2 - y1 * x2⟩

end Vec3

/-- A division that fails on a zero divisor and is `a / b` otherwise: the
operator `/` of an exact scalar type. -/
def checkedDiv {T : Type} [Div T] [OfNat T 0] [DecidableEq T] (a b : T) : Option T :=
  if b = 0 then none else some (a / b)

/-! ## Matrix44 -/

/-- The class template `Matrix44<T>`: the member `T m[4][4]`, a grid of
exactly four rows of four scalars. -/
structure Matrix44 (T : Type) where
  m : Fin 4 → Fin 4 → T

namespace Matrix44

variable {T : Type}

/-- The constructor `Matrix44() {}`: it has no initialiser of its own, so `m` takes
its default member initialiser `{{1,0,0,0},{0,1,0,0},{0,0,1,0},{0,0,0,1}}`. -/
def ctorDefault [OfNat T 0] [OfNat T 1] : Matrix44 T :=
  ⟨![![1, 0, 0, 0], ![0, 1, 0, 0], ![0, 0, 1, 0], ![0, 0, 0, 1]]⟩

/-- The assignment `mult[i][j] = v` through the non-const `operator []`. -/
def set (M : Matrix44 T) (i j : Fin 4) (v : T) : Matrix44 T :=
  ⟨fun r c => if r = i ∧ c = j then v else M.m r c⟩

/-- The inner loop `for(uint8_t j = 0; j < 4; ++j)` of `operator *`, entered at
counter `j` with the local `mult`; `A` is `*this`. -/
def mulInner [Add T] [Mul T] (A rhs : Matrix44 T) (i : Fin 4) (j : Nat)
    (mult : Matrix44 T) : Matrix44 T :=
  if h : j < 4 then
    mulInner A rhs i ((j + 1) % 256)
      (mult.set i ⟨j, h⟩
        (A.m i 0 * rhs.m 0 ⟨j, h⟩ +
         A.m i 1 * rhs.m 1 ⟨j, h⟩ +
         A.m i 2 * rhs.m 2 ⟨j, h⟩ +
         A.m i 3 * rhs.m 3 ⟨j, h⟩))
  else
    mult
termination_by 4 - j
decreasing_by omega

/-- The outer loop `for(uint8_t i = 0; i < 4; ++i)` of `operator *`, entered at
counter `i` with the local `mult`. -/
def mulOuter [Add T] [Mul T] (A rhs : Matrix44 T) (i : Nat) (mult : Matrix44 T) :
    Matrix44 T :=
  if h : i < 4 then
    mulOuter A rhs ((i + 1) % 256) (mulInner A rhs ⟨i, h⟩ 0 mult)
  else
    mult
termination_by 4 - i
decreasing_by omega

/-- The method `Matrix44 operator * (const Matrix44& rhs) const`: the local `mult` is
default-constructed, both loops run from counter `0`, and `mult` is returned. -/
def mul [Add T] [Mul T] [OfNat T 0] [OfNat T 1] (A rhs : Matrix44 T) : Matrix44 T :=
  mulOuter A rhs 0 ctorDefault

/-- The matrix product as the specification writes it:
`result[i][j] = Σ_{k=0..3} this[i][k] * other[k][j]`. -/
def mulSpec [AddCommMonoid T] [Mul T] (A B : Matrix44 T) : Matrix44 T :=
  ⟨fun i j => ∑ k : Fin 4, A.m i k * B.m k j⟩

end Matrix44

/-! ## Stream output and `main` -/

namespace Vec3

variable {T : Type}

/-- The friend `operator << (std::ostream &s, const Vec3<T> &v)`:
`s << '(' << v.x << ' ' << v.y << ' ' << v.z << ')'`. The stream is the text
written to it so far; `fmt` is the stream insertion of one scalar, which the
standard library supplies. -/
def write (fmt : T → String) (s : String) (v : Vec3 T) : String :=
  ((((((s.push '(') ++ fmt v.x).push ' ') ++ fmt v.y).push ' ') ++ fmt v.z).push ')'

end Vec3

/-- The local variables `a`, `b`, `c` of `main` when it reaches its output
statements, and the text it has written to `std::cerr` at its end. -/
structure MainRun (T : Type) where
  a : Vec3 T
  b : Vec3 T
  c : Vec3 T
  cerr : String

/-- The function `main`: `a(1.0f, 1.0f, 1.0f)`, `b(-1.0f, -1.0f, -1.0f)`,
`c = a.cross(b)`, then `a`, `b` and `c` are written to `std::cerr`, each
followed by `std::endl`. The unused `char name[100]` is left out. -/
def mainRun {T : Type} [Sub T] [Mul T] [Neg T] [OfNat T 1] (fmt : T → String) : MainRun T :=
  let a : Vec3 T := Vec3.ctor 1 1 1
  let b : Vec3 T := Vec3.ctor (-1) (-1) (-1)
  let c : Vec3 T := a.cross b
  let s0 : String := ""
  let s1 := (Vec3.write fmt s0 a).push '\n'
  let s2 := (Vec3.write fmt s1 b).push '\n'
  let s3 := (Vec3.write fmt s2 c).push '\n'
  ⟨a, b, c, s3⟩

/-! ## Matrix44 with bounds-checked element access -/

namespace Matrix44

variable {T : Type}

/-- A read `M[i][j]` through `operator []` with both indices checked against
the extent `4` of the array: `none` is an access outside `m`. -/
def get? (M : Matrix44 T) (i j : Nat) : Option T :=
  if h : i < 4 ∧ j < 4 then some (M.m ⟨i, h.1⟩ ⟨j, h.2⟩) else none

/-- A write `M[i][j] = v` through `operator []` with both indices checked. -/
def set? (M : Matrix44 T) (i j : Nat) (v : T) : Option (Matrix44 T) :=
  if h : i < 4 ∧ j < 4 then some (M.set ⟨i, h.1⟩ ⟨j, h.2⟩ v) else none

/-- The inner loop of `operator *` with every element access checked, entered
at counter `j` after `n` iterations of its body: the result is the local `mult`
and the number of iterations done when the loop is left, or `none` when an
access was out of range. -/
def mulInnerChecked [Add T] [Mul T] (A rhs : Matrix44 T) (i j n : Nat)
    (mult : Matrix44 T) : Option (Matrix44 T × Nat) :=
  if _h : j < 4 then
    match A.get? i 0, rhs.get? 0 j, A.get? i 1, rhs.get? 1 j,
        A.get? i 2, rhs.get? 2 j, A.get? i 3, rhs.get? 3 j with
    | some a0, some b0, some a1, some b1, some a2, some b2, some a3, some b3 =>
      match mult.set? i j (a0 * b0 + a1 * b1 + a2 * b2 + a3 * b3) with
      | some mult1 => mulInnerChecked A rhs i ((j + 1) % 256) (n + 1) mult1
      | none => none
    | _, _, _, _, _, _, _, _ => none
  else
    some (mult, n)
termination_by 4 - j
decreasing_by omega

/-- The outer loop of `operator *` with every element access checked, entered
at counter `i`: `inner` lists, for each iteration of the outer body done so
far, the number of iterations its run of the inner loop made. -/
def mulOuterChecked [Add T] [Mul T] (A rhs : Matrix44 T) (i : Nat) (inner : List Nat)
    (mult : Matrix44 T) : Option (Matrix44 T × List Nat) :=
  if _h : i < 4 then
    match mulInnerChecked A rhs i 0 0 mult with
    | some (mult1, n) => mulOuterChecked A rhs ((i + 1) % 256) (inner ++ [n]) mult1
    | none => none
  else
    some (mult, inner)
termination_by 4 - i
decreasing_by omega

/-- The method `operator *` with every element access checked: the product and
the iteration counts of the inner loop, one for each iteration of the outer
loop, or `none` when an access was out of range. -/
def mulChecked [Add T] [Mul T] [OfNat T 0] [OfNat T 1] (A rhs : Matrix44 T) :
    Option (Matrix44 T × List Nat) :=
  mulOuterChecked A rhs 0 [] ctorDefault

end Matrix44

/-! ## Floating-point scalars -/

/-- Modelled from the spec: a binary floating-point format for the scalar type
of the templates, which the source takes from the language (`float` in
`Vec3f`, the spec's single- or double-precision float). `prec` is the number of
significand bits and `2 ^ (-emin)` is the least positive value. -/
structure FloatFormat where
  prec : Nat
  emin : Nat
deriving DecidableEq, Repr

/-- The format of the C++ type `float` (IEEE 754 binary32): 24 significand bits,
least positive value `2 ^ (-149)`. -/
def binary32 : FloatFormat :=
  ⟨24, 149⟩

/-- The format of the C++ type `double` (IEEE 754 binary64): 53 significand
bits, least positive value `2 ^ (-1074)`. -/
def binary64 : FloatFormat :=
  ⟨53, 1074⟩

/-- The number of binary digits of `a`, counted in at most `fuel` steps that
drop 32 digits while `a` has more than 32 and one digit after that;
`bitLength a a` is the bit length of `a`, since `a < 2 ^ a`. -/
def bitLength : Nat → Nat → Nat
  | 0, _ => 0
  | fuel + 1, a =>
    if a = 0 then 0
    else if a < 2 ^ 32 then bitLength fuel (a / 2) + 1
    else bitLength fuel (a / 2 ^ 32) + 32

/-- Rounding to nearest, ties to even, of the non-negative number `a / 2 ^ shift`
to a whole number of at most `p` significant bits: the `shift` fractional bits
and the `q` low bits beyond the precision are dropped together. -/
def roundNat (p a shift : Nat) : Nat :=
  let len := bitLength a a
  let q := len - shift - p
  let d := shift + q
  let quo := a / 2 ^ d
  let rem := a % 2 ^ d
  if 2 ^ d < 2 * rem ∨ (2 * rem = 2 ^ d ∧ quo % 2 = 1) then (quo + 1) * 2 ^ q else quo * 2 ^ q

/-- Rounding to nearest, ties to even, of `n / 2 ^ shift` for an integer `n`. -/
def roundInt (p : Nat) (n : Int) (shift : Nat) : Int :=
  if 0 ≤ n then (roundNat p n.natAbs shift : Int) else -(roundNat p n.natAbs shift : Int)

/-- Modelled from the spec: a finite value of the floating-point format `f`,
the number `ticks * 2 ^ (-emin)`. Every finite `float` is such a multiple of the
least positive value. The two zeros are one value (they compare equal), and
infinities and NaN are left out: the operations below are those of IEEE 754
wherever the exact result is inside the finite range. -/
structure Flt (f : FloatFormat) where
  ticks : Int
deriving DecidableEq, Repr

namespace Flt

variable {f : FloatFormat}

/-- The value is one the format can hold: rounding leaves it as it is. -/
def Representable (a : Flt f) : Prop :=
  roundInt f.prec a.ticks 0 = a.ticks

instance (a : Flt f) : Decidable a.Representable :=
  inferInstanceAs (Decidable (roundInt f.prec a.ticks 0 = a.ticks))

/-- Floating-point addition: the exact sum, rounded. -/
def add (a b : Flt f) : Flt f :=
  ⟨roundInt f.prec (a.ticks + b.ticks) 0⟩

/-- Floating-point subtraction: the exact difference, rounded. -/
def sub (a b : Flt f) : Flt f :=
  ⟨roundInt f.prec (a.ticks - b.ticks) 0⟩

/-- Floating-point multiplication: the exact product, which is
`a.ticks * b.ticks / 2 ^ emin` ticks, rounded. -/
def mul (a b : Flt f) : Flt f :=
  ⟨roundInt f.prec (a.ticks * b.ticks) f.emin⟩

/-- Floating-point negation, which is exact. -/
def neg (a : Flt f) : Flt f :=
  ⟨-a.ticks⟩

/-- The conversion of a whole-number literal, rounded. -/
def ofNat (n : Nat) : Flt f :=
  ⟨roundInt f.prec ((n * 2 ^ f.emin : Nat) : Int) 0⟩

/-- The correctly rounded square root of a non-negative value: with `t` the
ticks of `a`, the root is `√(t * 2 ^ emin)` ticks; `r` is that root in quarter
ticks, rounded down, and the last bit records whether anything was lost. The
root of a negative value (NaN) is left out. -/
def sqrt (a : Flt f) : Flt f :=
  let t := a.ticks.toNat
  if t = 0 then ⟨0⟩
  else
    let n := t * 2 ^ (f.emin + 2)
    let r := Nat.sqrt n
    ⟨(roundNat f.prec (2 * r + (if r * r = n then 0 else 1)) 2 : Nat)⟩

instance : Add (Flt f) := ⟨add⟩

instance : Sub (Flt f) := ⟨sub⟩

instance : Mul (Flt f) := ⟨mul⟩

instance : Neg (Flt f) := ⟨neg⟩

instance (n : Nat) : OfNat (Flt f) n := ⟨ofNat n⟩

end Flt

/-! ## Lemmas on the multiplication loops -/

namespace Matrix44

variable {T : Type}

theorem ext_m {A B : Matrix44 T} (h : ∀ i j, A.m i j = B.m i j) : A = B := by
  cases A with
  | mk a =>
    cases B with
    | mk b =>
      have hab : a = b := funext fun i => funext fun j => h i j
      rw [hab]

/-- One full run of the inner loop writes the four entries of row `i`. -/
theorem mulInner_zero [Add T] [Mul T] (A rhs : Matrix44 T) (i : Fin 4) (mult : Matrix44 T) :
    mulInner A rhs i 0 mult =
      (((mult.set i 0 (A.m i 0 * rhs.m 0 0 + A.m i 1 * rhs.m 1 0 +
            A.m i 2 * rhs.m 2 0 + A.m i 3 * rhs.m 3 0)).set i 1
          (A.m i 0 * rhs.m 0 1 + A.m i 1 * rhs.m 1 1 +
            A.m i 2 * rhs.m 2 1 + A.m i 3 * rhs.m 3 1)).set i 2
          (A.m i 0 * rhs.m 0 2 + A.m i 1 * rhs.m 1 2 +
            A.m i 2 * rhs.m 2 2 + A.m i 3 * rhs.m 3 2)).set i 3
          (A.m i 0 * rhs.m 0 3 + A.m i 1 * rhs.m 1 3 +
            A.m i 2 * rhs.m 2 3 + A.m i 3 * rhs.m 3 3) := by
  simp [mulInner]

/-- One full run of the outer loop runs the inner loop on rows 0, 1, 2, 3. -/
theorem mulOuter_zero [Add T] [Mul T] (A rhs mult : Matrix44 T) :
    mulOuter A rhs 0 mult =
      mulInner A rhs 3 0 (mulInner A rhs 2 0 (mulInner A rhs 1 0 (mulInner A rhs 0 0 mult))) := by
  simp [mulOuter]

/-- Every entry of the result of the loops is the four-term sum of the source,
whatever the matrix the loops started from. -/
theorem mulOuter_apply [Add T] [Mul T] (A rhs mult : Matrix44 T) (i j : Fin 4) :
    (mulOuter A rhs 0 mult).m i j =
      A.m i 0 * rhs.m 0 j + A.m i 1 * rhs.m 1 j + A.m i 2 * rhs.m 2 j + A.m i 3 * rhs.m 3 j := by
  rw [mulOuter_zero]
  simp only [mulInner_zero]
  fin_cases i <;> fin_cases j <;> simp [set]

theorem mul_apply [Add T] [Mul T] [OfNat T 0] [OfNat T 1] (A rhs : Matrix44 T) (i j : Fin 4) :
    (mul A rhs).m i j =
      A.m i 0 * rhs.m 0 j + A.m i 1 * rhs.m 1 j + A.m i 2 * rhs.m 2 j + A.m i 3 * rhs.m 3 j :=
  mulOuter_apply A rhs ctorDefault i j

theorem mul_eq_mulSpec [Semiring T] (A B : Matrix44 T) : mul A B = mulSpec A B := by
  apply ext_m
  intro i j
  rw [mul_apply]
  simp [mulSpec, Fin.sum_univ_four]

theorem ctorDefault_apply [OfNat T 0] [OfNat T 1] (i j : Fin 4) :
    (ctorDefault : Matrix44 T).m i j = if i = j then 1 else 0 := by
  fin_cases i <;> fin_cases j <;> rfl

end Matrix44

/-! ## Lemmas on the floating-point scalars -/

set_option maxRecDepth 100000

set_option exponentiation.threshold 10000

/-- With enough fuel `bitLength` is the bit length: `a` is below `2 ^ bitLength`
and, when positive, at least `2 ^ (bitLength - 1)`. -/
theorem bitLength_spec (fuel a : Nat) (h : a ≤ fuel) :
    a < 2 ^ bitLength fuel a ∧ (0 < a → 2 ^ (bitLength fuel a - 1) ≤ a) := by
  induction fuel generalizing a with
  | zero =>
    have h0 : a = 0 := by omega
    subst h0
    simp [bitLength]
  | succ n ih =>
    rw [bitLength]
    by_cases h0 : a = 0
    · subst h0
      simp
    · rw [if_neg h0]
      by_cases h32 : a < 2 ^ 32
      · rw [if_pos h32]
        obtain ⟨h1, h2⟩ := ih (a / 2) (by omega)
        refine ⟨?_, fun _ => ?_⟩
        · rw [pow_succ]
          omega
        · rw [Nat.add_sub_cancel]
          by_cases hz : a / 2 = 0
          · rw [hz] at h1 ⊢
            have hb : bitLength n 0 = 0 := by
              cases n <;> simp [bitLength]
            rw [hb]
            omega
          · have h3 := h2 (by omega)
            have hpos : 0 < bitLength n (a / 2) := by
              by_contra hc
              have hc0 : bitLength n (a / 2) = 0 := by omega
              rw [hc0] at h1
              omega
            obtain ⟨k, hk⟩ : ∃ k, bitLength n (a / 2) = k + 1 := ⟨_, (Nat.succ_pred_eq_of_pos hpos).symm⟩
            rw [hk] at h3 ⊢
            rw [Nat.add_sub_cancel] at h3
            rw [pow_succ]
            omega
      · rw [if_neg h32]
        have hle : a / 2 ^ 32 ≤ n := by
          have : a / 2 ^ 32 ≤ a / 2 := Nat.div_le_div_left (by norm_num) (by norm_num)
          omega
        obtain ⟨h1, h2⟩ := ih (a / 2 ^ 32) hle
        have hq : 0 < a / 2 ^ 32 := Nat.div_pos (by omega) (by norm_num)
        have h3 := h2 hq
        have hpos : 0 < bitLength n (a / 2 ^ 32) := by
          by_contra hc
          have hc0 : bitLength n (a / 2 ^ 32) = 0 := by omega
          rw [hc0] at h1
          omega
        obtain ⟨k, hk⟩ : ∃ k, bitLength n (a / 2 ^ 32) = k + 1 :=
          ⟨_, (Nat.succ_pred_eq_of_pos hpos).symm⟩
        rw [hk] at h1 h3 ⊢
        rw [Nat.add_sub_cancel] at h3
        have e1 : 2 ^ (k + 1 + 32) = 2 ^ (k + 1) * 2 ^ 32 := pow_add 2 (k + 1) 32
        have e2 : 2 ^ (k + 1 + 32 - 1) = 2 ^ k * 2 ^ 32 := by
          have : k + 1 + 32 - 1 = k + 32 := by omega
          rw [this, pow_add]
        refine ⟨?_, fun _ => ?_⟩
        · rw [e1]
          exact (Nat.div_lt_iff_lt_mul (by norm_num)).mp h1
        · rw [e2]
          exact (Nat.le_div_iff_mul_le (by norm_num)).mp h3

/-- The rounded value is within half a unit in the last place of the exact one:
with `d` the number of digits dropped, `roundNat p a shift * 2 ^ shift` differs
from `a` by at most `2 ^ d / 2`. -/
theorem roundNat_near (p a shift : Nat) :
    2 * (roundNat p a shift * 2 ^ shift) ≤ 2 * a + 2 ^ (shift + (bitLength a a - shift - p)) ∧
      2 * a ≤ 2 * (roundNat p a shift * 2 ^ shift) +
        2 ^ (shift + (bitLength a a - shift - p)) := by
  have hq : ∀ n : Nat, n * 2 ^ (bitLength a a - shift - p) * 2 ^ shift =
      n * 2 ^ (shift + (bitLength a a - shift - p)) := by
    intro n
    rw [pow_add]
    ring
  have hdiv := Nat.div_add_mod a (2 ^ (shift + (bitLength a a - shift - p)))
  have hlt : a % 2 ^ (shift + (bitLength a a - shift - p)) <
      2 ^ (shift + (bitLength a a - shift - p)) := Nat.mod_lt _ (pow_pos (by norm_num) _)
  simp only [roundNat]
  generalize 2 ^ (shift + (bitLength a a - shift - p)) = D at hq hdiv hlt ⊢
  generalize a / D = Q at hdiv ⊢
  generalize a % D = R at hdiv hlt ⊢
  split
  · rename_i hup
    rw [hq, Nat.add_mul]
    rcases hup with h | ⟨h, _⟩ <;> constructor <;> nlinarith
  · rename_i hdown
    rw [hq]
    have h1 : ¬ D < 2 * R := fun hc => hdown (Or.inl hc)
    constructor <;> nlinarith

theorem roundNat_zero (p shift : Nat) : roundNat p 0 shift = 0 := by
  have h : ¬ (0 = 2 ^ shift) := fun hc => absurd hc.symm (pow_ne_zero shift (by decide))
  simp [roundNat, bitLength, h]

theorem roundInt_zero (p shift : Nat) : roundInt p 0 shift = 0 := by
  simp [roundInt, roundNat_zero]

namespace Flt

variable {f : FloatFormat}

theorem zero_eq : (0 : Flt f) = ⟨0⟩ := by
  show Flt.ofNat 0 = ⟨0⟩
  simp [Flt.ofNat, roundInt_zero]

theorem mul_zero_right (a : Flt f) : a * 0 = 0 := by
  rw [zero_eq]
  show Flt.mul a ⟨0⟩ = ⟨0⟩
  simp [Flt.mul, roundInt_zero]

theorem zero_mul_left (a : Flt f) : 0 * a = 0 := by
  rw [zero_eq]
  show Flt.mul ⟨0⟩ a = ⟨0⟩
  simp [Flt.mul, roundInt_zero]

theorem zero_sub_zero : (0 : Flt f) - 0 = 0 := by
  rw [zero_eq]
  show Flt.sub ⟨0⟩ ⟨0⟩ = ⟨0⟩
  simp [Flt.sub, roundInt_zero]

/-- Floating-point multiplication is commutative. -/
theorem mul_comm_flt (a b : Flt f) : a * b = b * a := by
  show Flt.mul a b = Flt.mul b a
  simp [Flt.mul, Int.mul_comm]

end Flt

/-! ## Matrix44: the claims -/

/-- C1: over exact scalars (any semiring `T`), `Matrix44::operator*` is
associative: `(A * B) * C` and `A * (B * C)` are the same matrix, entry for
entry. -/
theorem matrix44_mul_assoc {T : Type} [Semiring T] (A B C : Matrix44 T) :
    (A.mul B).mul C = A.mul (B.mul C) ∧
      ∀ i j : Fin 4, ((A.mul B).mul C).m i j = (A.mul (B.mul C)).m i j := by
  have key : (A.mul B).mul C = A.mul (B.mul C) := by
    apply Matrix44.ext_m
    intro i j
    simp only [Matrix44.mul_apply, add_mul, mul_add, mul_assoc]
    abel
  exact ⟨key, fun i j => by rw [key]⟩

/-- C2: the default-constructed `Matrix44` is neutral for `operator*` on both
sides: `A * Identity = A` and `Identity * A = A`, for all 16 entries. -/
theorem matrix44_mul_identity {T : Type} [Semiring T] (A : Matrix44 T) :
    A.mul Matrix44.ctorDefault = A ∧ Matrix44.ctorDefault.mul A = A ∧
      ∀ i j : Fin 4, (A.mul Matrix44.ctorDefault).m i j = A.m i j ∧
        (Matrix44.ctorDefault.mul A).m i j = A.m i j := by
  have hr : ∀ i j : Fin 4, (A.mul Matrix44.ctorDefault).m i j = A.m i j := by
    intro i j
    rw [Matrix44.mul_apply]
    simp only [Matrix44.ctorDefault_apply]
    fin_cases j <;> simp
  have hl : ∀ i j : Fin 4, (Matrix44.ctorDefault.mul A).m i j = A.m i j := by
    intro i j
    rw [Matrix44.mul_apply]
    simp only [Matrix44.ctorDefault_apply]
    fin_cases i <;> simp
  exact ⟨Matrix44.ext_m hr, Matrix44.ext_m hl, fun i j => ⟨hr i j, hl i j⟩⟩

/-- C9: every one of the 16 entries `[i][j]` of `A * B` is the sum over
`k = 0..3` of `A[i][k] * B[k][j]`, the loops overwrite every entry of the
matrix they start from (no entry keeps the identity value `mult` was
initialised with: the result is the same from any initial `mult`), and the
result is the product the specification writes. The operands are the read-only
parameters `A` and `rhs` of the loops; the only state the loops thread is the
local `mult`. -/
theorem matrix44_mul_entries {T : Type} [Semiring T] (A B : Matrix44 T) :
    (∀ i j : Fin 4, (A.mul B).m i j = ∑ k : Fin 4, A.m i k * B.m k j) ∧
      (∀ i j : Fin 4, (A.mul B).m i j =
        A.m i 0 * B.m 0 j + A.m i 1 * B.m 1 j + A.m i 2 * B.m 2 j + A.m i 3 * B.m 3 j) ∧
      (∀ init : Matrix44 T, Matrix44.mulOuter A B 0 init = A.mul B) ∧
      A.mul B = Matrix44.mulSpec A B := by
  refine ⟨fun i j => ?_, fun i j => Matrix44.mul_apply A B i j, fun init => ?_,
    Matrix44.mul_eq_mulSpec A B⟩
  · rw [Matrix44.mul_apply, Fin.sum_univ_four]
  · apply Matrix44.ext_m
    intro i j
    rw [Matrix44.mulOuter_apply, Matrix44.mul_apply]

/-! ## Lemmas on length over the real numbers -/

namespace Vec3

theorem sumSq_nonneg (x y z : ℝ) : 0 ≤ x * x + y * y + z * z := by
  nlinarith [mul_self_nonneg x, mul_self_nonneg y, mul_self_nonneg z]

theorem sumSq_eq_zero_iff (x y z : ℝ) :
    x * x + y * y + z * z = 0 ↔ x = 0 ∧ y = 0 ∧ z = 0 := by
  constructor
  · intro h
    have hx : x * x = 0 := by
      nlinarith [mul_self_nonneg x, mul_self_nonneg y, mul_self_nonneg z]
    have hy : y * y = 0 := by
      nlinarith [mul_self_nonneg x, mul_self_nonneg y, mul_self_nonneg z]
    have hz : z * z = 0 := by
      nlinarith [mul_self_nonneg x, mul_self_nonneg y, mul_self_nonneg z]
    exact ⟨mul_self_eq_zero.mp hx, mul_self_eq_zero.mp hy, mul_self_eq_zero.mp hz⟩
  · rintro ⟨rfl, rfl, rfl⟩
    ring

theorem length_eq_zero_iff (v : Vec3 ℝ) :
    v.length Real.sqrt = 0 ↔ v = Vec3.ctorDefault := by
  obtain ⟨x, y, z⟩ := v
  simp only [length, ctorDefault, Vec3.mk.injEq]
  rw [Real.sqrt_eq_zero (sumSq_nonneg x y z)]
  exact sumSq_eq_zero_iff x y z

theorem length_pos_of_ne (v : Vec3 ℝ) (h : v ≠ Vec3.ctorDefault) :
    0 < v.length Real.sqrt := by
  have h0 : v.length Real.sqrt ≠ 0 := fun hc => h ((length_eq_zero_iff v).mp hc)
  exact lt_of_le_of_ne (Real.sqrt_nonneg _) (Ne.symm h0)

end Vec3

/-! ## Vec3: the claims -/

/-- C3: over exact commutative scalars, `Vec3::cross` is anti-commutative:
`a.cross(b)` is the component-wise negation of `b.cross(a)`. -/
theorem vec3_cross_anticomm {T : Type} [CommRing T] (a b : Vec3 T) :
    a.cross b = Vec3.ctor (-(b.cross a).x) (-(b.cross a).y) (-(b.cross a).z) := by
  simp only [Vec3.cross, Vec3.ctor, Vec3.mk.injEq]
  refine ⟨?_, ?_, ?_⟩ <;> ring

/-- C4: over the real numbers, for every vector `a` other than the zero vector,
`a.normalize()` runs without a failing division, and afterwards the length of
the vector (read through the returned reference, or from `a` itself) is
exactly `1`. -/
theorem vec3_normalize_length_one (a : Vec3 ℝ) (h : a ≠ Vec3.ctorDefault) :
    ∃ r s : Vec3 ℝ, a.normalize Real.sqrt checkedDiv = some (r, s) ∧
      r.length Real.sqrt = 1 ∧ s.length Real.sqrt = 1 := by
  have hpos : 0 < a.length Real.sqrt := Vec3.length_pos_of_ne a h
  obtain ⟨x, y, z⟩ := a
  simp only [Vec3.length] at hpos
  have hs : 0 ≤ x * x + y * y + z * z := Vec3.sumSq_nonneg x y z
  have hsq : Real.sqrt (x * x + y * y + z * z) * Real.sqrt (x * x + y * y + z * z) =
      x * x + y * y + z * z := Real.mul_self_sqrt hs
  have hone : (⟨x * (1 / Real.sqrt (x * x + y * y + z * z)),
      y * (1 / Real.sqrt (x * x + y * y + z * z)),
      z * (1 / Real.sqrt (x * x + y * y + z * z))⟩ : Vec3 ℝ).length Real.sqrt = 1 := by
    simp only [Vec3.length]
    have hin : x * (1 / Real.sqrt (x * x + y * y + z * z)) *
          (x * (1 / Real.sqrt (x * x + y * y + z * z))) +
        y * (1 / Real.sqrt (x * x + y * y + z * z)) *
          (y * (1 / Real.sqrt (x * x + y * y + z * z))) +
        z * (1 / Real.sqrt (x * x + y * y + z * z)) *
          (z * (1 / Real.sqrt (x * x + y * y + z * z))) = 1 := by
      have hne : Real.sqrt (x * x + y * y + z * z) ≠ 0 := ne_of_gt hpos
      have hs0 : x * x + y * y + z * z ≠ 0 := by
        rw [← hsq]
        exact mul_ne_zero hne hne
      generalize Real.sqrt (x * x + y * y + z * z) = L at hsq hne
      calc x * (1 / L) * (x * (1 / L)) + y * (1 / L) * (y * (1 / L)) +
            z * (1 / L) * (z * (1 / L))
          = (x * x + y * y + z * z) * (L * L)⁻¹ := by
            rw [mul_inv, one_div]
            ring
        _ = 1 := by
            rw [hsq]
            exact mul_inv_cancel₀ hs0
    rw [hin, Real.sqrt_one]
  refine ⟨_, _, ?_, hone, hone⟩
  simp only [Vec3.normalize, Vec3.length, checkedDiv, if_pos hpos, if_neg (ne_of_gt hpos)]

/-- The witness of C4 at `a = (3, 0, 4)`. -/
theorem vec3_normalize_length_one_witness :
    (Vec3.ctor 3 0 4 : Vec3 ℝ) ≠ Vec3.ctorDefault ∧
      ∃ r s : Vec3 ℝ, (Vec3.ctor 3 0 4 : Vec3 ℝ).normalize Real.sqrt checkedDiv = some (r, s) ∧
        r.length Real.sqrt = 1 ∧ s.length Real.sqrt = 1 :=
  ⟨by simp [Vec3.ctor, Vec3.ctorDefault],
    vec3_normalize_length_one (Vec3.ctor 3 0 4) (by simp [Vec3.ctor, Vec3.ctorDefault])⟩

/-- C5: normalizing the zero vector is a no-op and never an error: over the real
numbers, for `a = (0,0,0)` and for every division operator, also one that
fails on every input, `a.normalize()` succeeds, leaves `a` equal to `(0,0,0)`
and returns `(0,0,0)`: the division is not reached. -/
theorem vec3_normalize_zero (div : ℝ → ℝ → Option ℝ) :
    (Vec3.ctorDefault : Vec3 ℝ).normalize Real.sqrt div =
        some (Vec3.ctorDefault, Vec3.ctorDefault) ∧
      (Vec3.ctorDefault : Vec3 ℝ).normalize Real.sqrt (fun _ _ => none) =
        some (Vec3.ctor 0 0 0, Vec3.ctor 0 0 0) := by
  constructor <;> simp [Vec3.normalize, Vec3.length, Vec3.ctorDefault, Vec3.ctor]

/-- C6: over exact scalars (any additive group `T`), adding `b` and then
subtracting `b` returns `a`, component for component. -/
theorem vec3_add_sub_cancel {T : Type} [AddGroup T] (a b : Vec3 T) :
    (a.add b).sub b = a ∧ ((a.add b).sub b).x = a.x ∧ ((a.add b).sub b).y = a.y ∧
      ((a.add b).sub b).z = a.z := by
  obtain ⟨x, y, z⟩ := a
  simp [Vec3.add, Vec3.sub, Vec3.ctor]

/-- C7: `a.cross(b)` is `(y1*z2 - z1*y2, z1*x2 - x1*z2, x1*y2 - y1*x2)` for
`a = (x1,y1,z1)` and `b = (x2,y2,z2)`, the formula of the specification; in
particular `(1,0,0).cross((0,1,0)) = (0,0,1)`. `cross` is a `const` method on a
`const` reference: a function of the two values, which it cannot change. -/
theorem vec3_cross_formula {T : Type} [Ring T] (x1 y1 z1 x2 y2 z2 : T) :
    (Vec3.ctor x1 y1 z1).cross (Vec3.ctor x2 y2 z2) =
        Vec3.ctor (y1 * z2 - z1 * y2) (z1 * x2 - x1 * z2) (x1 * y2 - y1 * x2) ∧
      (∀ a b : Vec3 T, a.cross b = Vec3.crossSpec a b) ∧
      (Vec3.ctor 1 0 0 : Vec3 T).cross (Vec3.ctor 0 1 0) = Vec3.ctor 0 0 1 := by
  refine ⟨rfl, ?_, ?_⟩
  · rintro ⟨ax, ay, az⟩ ⟨bx, b_y, bz⟩
    rfl
  · simp [Vec3.cross, Vec3.ctor]

/-- C8, as amended: over exact commutative scalars the cross product of parallel
vectors is the zero vector: `a.cross(a * r)` and `(a * r).cross(a)` are
`(0,0,0)` for every `a` and `r`, so are `a.cross(zero)` and `zero.cross(a)`, and
the vectors `(1,1,1)` and `(-1,-1,-1)` of `main` cross to `(0,0,0)`. On finite
floating-point scalars of any format `a.cross(zero)` and `zero.cross(a)` are
still `(0,0,0)` for every `a`, and on `float` the vectors of `main` still cross
to exactly `(0,0,0)`; `a.cross(a * r)` is there zero only up to rounding. -/
theorem vec3_cross_parallel {T : Type} [CommRing T] (a : Vec3 T) (r : T) :
    a.cross (a.scale r) = Vec3.ctorDefault ∧
      (a.scale r).cross a = Vec3.ctorDefault ∧
      a.cross Vec3.ctorDefault = Vec3.ctorDefault ∧
      Vec3.ctorDefault.cross a = Vec3.ctorDefault ∧
      (Vec3.ctor 1 1 1 : Vec3 T).cross (Vec3.ctor (-1) (-1) (-1)) = Vec3.ctor 0 0 0 ∧
      (∀ (f : FloatFormat) (v : Vec3 (Flt f)),
        v.cross Vec3.ctorDefault = Vec3.ctorDefault ∧
          Vec3.ctorDefault.cross v = Vec3.ctorDefault) ∧
      (Vec3.ctor 1 1 1 : Vec3 (Flt binary32)).cross (Vec3.ctor (-1) (-1) (-1)) =
        Vec3.ctor 0 0 0 := by
  refine ⟨?_, ?_, ?_, ?_, ?_, fun f v => ?_, by decide⟩
  · obtain ⟨x, y, z⟩ := a
    simp only [Vec3.cross, Vec3.scale, Vec3.ctor, Vec3.ctorDefault, Vec3.mk.injEq]
    refine ⟨?_, ?_, ?_⟩ <;> ring
  · obtain ⟨x, y, z⟩ := a
    simp only [Vec3.cross, Vec3.scale, Vec3.ctor, Vec3.ctorDefault, Vec3.mk.injEq]
    refine ⟨?_, ?_, ?_⟩ <;> ring
  · simp [Vec3.cross, Vec3.ctor, Vec3.ctorDefault]
  · simp [Vec3.cross, Vec3.ctor, Vec3.ctorDefault]
  · simp [Vec3.cross, Vec3.ctor]
  · simp [Vec3.cross, Vec3.ctor, Vec3.ctorDefault, Flt.mul_zero_right, Flt.zero_mul_left,
      Flt.zero_sub_zero]

namespace Vec3

/-- With a positive length, `normalize` takes the guarded branch, the division
`1 / len` succeeds, and each component is multiplied by its result. -/
theorem normalize_of_pos {T : Type} [LinearOrderedField T] (sqrt : T → T) (v : Vec3 T)
    (h : 0 < v.length sqrt) :
    v.normalize sqrt checkedDiv =
      some (v.scale (1 / v.length sqrt), v.scale (1 / v.length sqrt)) := by
  simp only [normalize, checkedDiv, if_pos h, if_neg (ne_of_gt h), scale, ctor]

theorem normalize_of_not_pos {T : Type} [LinearOrderedField T] (sqrt : T → T)
    (div : T → T → Option T) (v : Vec3 T) (h : ¬ 0 < v.length sqrt) :
    v.normalize sqrt div = some (v, v) := by
  simp only [normalize, if_neg h]

/-- Over the reals, scaling a vector of positive length by the reciprocal of
its length gives a vector of length one. -/
theorem length_scale_inv (v : Vec3 ℝ) (h : 0 < v.length Real.sqrt) :
    (v.scale (1 / v.length Real.sqrt)).length Real.sqrt = 1 := by
  obtain ⟨x, y, z⟩ := v
  simp only [length] at h
  have hs : 0 ≤ x * x + y * y + z * z := sumSq_nonneg x y z
  have hsq := Real.mul_self_sqrt hs
  have hne : Real.sqrt (x * x + y * y + z * z) ≠ 0 := ne_of_gt h
  have hs0 : x * x + y * y + z * z ≠ 0 := by
    rw [← hsq]
    exact mul_ne_zero hne hne
  simp only [length, scale, ctor]
  generalize Real.sqrt (x * x + y * y + z * z) = L at hsq hne
  have hin : x * (1 / L) * (x * (1 / L)) + y * (1 / L) * (y * (1 / L)) +
      z * (1 / L) * (z * (1 / L)) = 1 := by
    calc x * (1 / L) * (x * (1 / L)) + y * (1 / L) * (y * (1 / L)) +
          z * (1 / L) * (z * (1 / L))
        = (x * x + y * y + z * z) * (L * L)⁻¹ := by
          rw [mul_inv, one_div]
          ring
      _ = 1 := by
          rw [hsq]
          exact mul_inv_cancel₀ hs0
  rw [hin, Real.sqrt_one]

/-- Over the reals, `normalize` leaves a vector of length one as it is. -/
theorem normalize_of_length_one (s : Vec3 ℝ) (h : s.length Real.sqrt = 1) :
    s.normalize Real.sqrt checkedDiv = some (s, s) := by
  have hpos : 0 < s.length Real.sqrt := by
    rw [h]
    exact one_pos
  rw [normalize_of_pos Real.sqrt s hpos, h]
  obtain ⟨x, y, z⟩ := s
  simp [scale, ctor]

end Vec3

/-! ## Vec3: further claims -/

/-- C11: for every vector `v` with `length() > 0` (over any ordered field and
any square root), `normalize()` succeeds and replaces each component by that
component multiplied by `1 / len`, with `len` the length before the call: the
mutated vector is `v * (1 / len)`, and the value read through the returned
reference is that same mutated vector. -/
theorem vec3_normalize_scales {T : Type} [LinearOrderedField T] (sqrt : T → T) (v : Vec3 T)
    (h : 0 < v.length sqrt) :
    ∃ r s : Vec3 T, v.normalize sqrt checkedDiv = some (r, s) ∧
      s = v.scale (1 / v.length sqrt) ∧
      s.x = v.x * (1 / v.length sqrt) ∧ s.y = v.y * (1 / v.length sqrt) ∧
      s.z = v.z * (1 / v.length sqrt) ∧
      r = s :=
  ⟨_, _, Vec3.normalize_of_pos sqrt v h, rfl, rfl, rfl, rfl, rfl⟩

/-- The witness of C11 at `v = (1, 0, 0)` over the reals. -/
theorem vec3_normalize_scales_witness :
    0 < (Vec3.ctor 1 0 0 : Vec3 ℝ).length Real.sqrt ∧
      ∃ r s : Vec3 ℝ, (Vec3.ctor 1 0 0 : Vec3 ℝ).normalize Real.sqrt checkedDiv = some (r, s) ∧
        s = (Vec3.ctor 1 0 0 : Vec3 ℝ).scale (1 / (Vec3.ctor 1 0 0 : Vec3 ℝ).length Real.sqrt) ∧
        s.x = 1 * (1 / (Vec3.ctor 1 0 0 : Vec3 ℝ).length Real.sqrt) ∧
        s.y = 0 * (1 / (Vec3.ctor 1 0 0 : Vec3 ℝ).length Real.sqrt) ∧
        s.z = 0 * (1 / (Vec3.ctor 1 0 0 : Vec3 ℝ).length Real.sqrt) ∧
        r = s :=
  ⟨by simp [Vec3.length, Vec3.ctor],
    vec3_normalize_scales Real.sqrt (Vec3.ctor 1 0 0) (by simp [Vec3.length, Vec3.ctor])⟩

/-- C14, as amended: over exact commutative scalars, `a.cross(b)` is orthogonal to both
inputs: `a.dotProduct(a.cross(b)) = 0` and `b.dotProduct(a.cross(b)) = 0`. -/
theorem vec3_cross_orthogonal {T : Type} [CommRing T] (a b : Vec3 T) :
    a.dotProduct (a.cross b) = 0 ∧ b.dotProduct (a.cross b) = 0 := by
  simp only [Vec3.dotProduct, Vec3.cross, Vec3.ctor]
  constructor <;> ring

/-- C15, as amended: for every scalar type `a.dotProduct(b)` is
`x1*x2 + y1*y2 + z1*z2`. Over exact commutative scalars it is symmetric and
linear in the vector it is called on:
`(a * r + b).dotProduct(c) = r * a.dotProduct(c) + b.dotProduct(c)`. On finite
floating-point scalars of any format it is still symmetric; the linearity
holds there only up to rounding. -/
theorem vec3_dotProduct_inner {T : Type} [CommRing T] (a b c : Vec3 T) (r : T) :
    a.dotProduct b = a.x * b.x + a.y * b.y + a.z * b.z ∧
      a.dotProduct b = b.dotProduct a ∧
      ((a.scale r).add b).dotProduct c = r * a.dotProduct c + b.dotProduct c ∧
      (∀ (S : Type) [Add S] [Mul S] (u w : Vec3 S),
        u.dotProduct w = u.x * w.x + u.y * w.y + u.z * w.z) ∧
      (∀ (f : FloatFormat) (u w : Vec3 (Flt f)), u.dotProduct w = w.dotProduct u) := by
  refine ⟨rfl, ?_, ?_, fun _ _ _ _ _ => rfl, fun f u w => ?_⟩
  · simp only [Vec3.dotProduct]
    ring
  · simp only [Vec3.dotProduct, Vec3.scale, Vec3.add, Vec3.ctor]
    ring
  · simp only [Vec3.dotProduct, Flt.mul_comm_flt u.x, Flt.mul_comm_flt u.y,
      Flt.mul_comm_flt u.z]

/-- C17, as amended: over exact commutative scalars the squared magnitude of the cross
product satisfies the Lagrange identity:
`(a×b)·(a×b) = (a·a)(b·b) − (a·b)(a·b)`. -/
theorem vec3_cross_lagrange {T : Type} [CommRing T] (a b : Vec3 T) :
    (a.cross b).dotProduct (a.cross b) =
      a.dotProduct a * b.dotProduct b - a.dotProduct b * a.dotProduct b := by
  simp only [Vec3.dotProduct, Vec3.cross, Vec3.ctor]
  ring

/-- C18: over the real numbers `normalize` is idempotent for every vector, zero
or not: the first call succeeds and leaves a vector `s`, and a second call on
`s` succeeds and leaves `s` again, which is also what running the two calls in
sequence gives. -/
theorem vec3_normalize_idempotent (v : Vec3 ℝ) :
    ∃ s : Vec3 ℝ, v.normalize Real.sqrt checkedDiv = some (s, s) ∧
      s.normalize Real.sqrt checkedDiv = some (s, s) ∧
      ((v.normalize Real.sqrt checkedDiv).bind
        fun p => p.2.normalize Real.sqrt checkedDiv) = v.normalize Real.sqrt checkedDiv := by
  by_cases h : 0 < v.length Real.sqrt
  · have h1 := Vec3.normalize_of_pos Real.sqrt v h
    have h2 := Vec3.normalize_of_length_one _ (Vec3.length_scale_inv v h)
    exact ⟨_, h1, h2, by rw [h1]; exact h2⟩
  · have h1 := Vec3.normalize_of_not_pos Real.sqrt checkedDiv v h
    exact ⟨v, h1, h1, by rw [h1]; exact h1⟩

/-- C20: over the real numbers length is absolutely homogeneous under scaling:
`(v * r).length() = |r| * v.length()` for every vector `v` and scalar `r`. -/
theorem vec3_length_scale (v : Vec3 ℝ) (r : ℝ) :
    (v.scale r).length Real.sqrt = |r| * v.length Real.sqrt := by
  obtain ⟨x, y, z⟩ := v
  simp only [Vec3.length, Vec3.scale, Vec3.ctor]
  have hin : x * r * (x * r) + y * r * (y * r) + z * r * (z * r) =
      r * r * (x * x + y * y + z * z) := by ring
  rw [hin, Real.sqrt_mul (mul_self_nonneg r), Real.sqrt_mul_self_eq_abs]

/-! ## Lemmas on the checked multiplication loops -/

namespace Matrix44

variable {T : Type}

/-- Entered at counter `0` on a row `i < 4`, the checked inner loop finds every
access in range, makes four iterations and computes what `mulInner` does. -/
theorem mulInnerChecked_zero [Add T] [Mul T] (A rhs : Matrix44 T) (i : Nat) (hi : i < 4)
    (n : Nat) (mult : Matrix44 T) :
    mulInnerChecked A rhs i 0 n mult = some (mulInner A rhs ⟨i, hi⟩ 0 mult, n + 4) := by
  rw [mulInner_zero]
  simp [mulInnerChecked, get?, set?, hi]

/-- Entered at counter `0`, the checked outer loop finds every access in range,
makes four iterations and computes what `mulOuter` does. -/
theorem mulOuterChecked_zero [Add T] [Mul T] (A rhs : Matrix44 T) (inner : List Nat)
    (mult : Matrix44 T) :
    mulOuterChecked A rhs 0 inner mult =
      some (mulOuter A rhs 0 mult, inner ++ [4, 4, 4, 4]) := by
  rw [mulOuter_zero]
  simp [mulOuterChecked, mulInnerChecked_zero]

end Matrix44

/-! ## Matrix44: further claims -/

/-- C12: a default-constructed `Matrix44` is the identity matrix: entry `[i][j]`
is `1` when `i = j` and `0` otherwise, for all `i`, `j` in `0..3` (so `[0][0]`
is `1` and `[0][1]` is `0`), and a default-constructed `Vec3` is `(0,0,0)`. -/
theorem matrix44_default_identity {T : Type} [Semiring T] :
    (∀ i j : Fin 4, (Matrix44.ctorDefault : Matrix44 T).m i j = if i = j then 1 else 0) ∧
      (Matrix44.ctorDefault : Matrix44 T).m 0 0 = 1 ∧
      (Matrix44.ctorDefault : Matrix44 T).m 0 1 = 0 ∧
      (Matrix44.ctorDefault : Matrix44 T).m = (1 : Matrix (Fin 4) (Fin 4) T) ∧
      (Vec3.ctorDefault : Vec3 T) = Vec3.ctor 0 0 0 := by
  refine ⟨Matrix44.ctorDefault_apply, rfl, rfl, ?_, rfl⟩
  funext i j
  rw [Matrix44.ctorDefault_apply, Matrix.one_apply]

/-- C13: `Matrix44` multiplication is not commutative in general: over any
scalars with `1 ≠ 0` there are matrices `A` and `B` with `A * B ≠ B * A`. -/
theorem matrix44_mul_not_comm {T : Type} [Semiring T] (h : (1 : T) ≠ 0) :
    ∃ A B : Matrix44 T, A.mul B ≠ B.mul A := by
  refine ⟨⟨fun i j => if i = 0 ∧ j = 1 then 1 else 0⟩,
    ⟨fun i j => if i = 1 ∧ j = 0 then 1 else 0⟩, fun hc => ?_⟩
  have h00 := congrFun (congrFun (congrArg Matrix44.m hc) 0) 0
  rw [Matrix44.mul_apply, Matrix44.mul_apply] at h00
  simp at h00
  exact h h00

/-- The witness of C13 over the integers. -/
theorem matrix44_mul_not_comm_witness :
    (1 : ℤ) ≠ 0 ∧ ∃ A B : Matrix44 ℤ, A.mul B ≠ B.mul A :=
  ⟨by decide, matrix44_mul_not_comm (by decide)⟩

/-- C19: with every element access of `operator *` bounds-checked, every access
made by the two loops is in the range `0..3` for all inputs (the checked run is
never `none`), the outer loop ends after exactly four iterations, each of its
runs of the inner loop ends after exactly four iterations, and the matrix
computed is the one `operator *` returns. -/
theorem matrix44_mul_in_bounds {T : Type} [Add T] [Mul T] [OfNat T 0] [OfNat T 1]
    (A B : Matrix44 T) :
    A.mulChecked B = some (A.mul B, [4, 4, 4, 4]) ∧
      (∀ (i : Fin 4) (mult : Matrix44 T),
        Matrix44.mulInnerChecked A B i.val 0 0 mult =
          some (Matrix44.mulInner A B i 0 mult, 4)) := by
  constructor
  · simp [Matrix44.mulChecked, Matrix44.mul, Matrix44.mulOuterChecked_zero]
  · intro i mult
    rw [Matrix44.mulInnerChecked_zero A B i.val i.isLt 0 mult]

/-! ## Stream output: lemmas and the claim -/

namespace Vec3

/-- The text `operator <<` appends to the stream. -/
theorem write_eq {T : Type} (fmt : T → String) (s : String) (v : Vec3 T) :
    write fmt s v = s ++ "(" ++ fmt v.x ++ " " ++ fmt v.y ++ " " ++ fmt v.z ++ ")" := by
  apply String.ext
  simp [write]

end Vec3

/-- In `main` the vector `c` is the zero vector, over any ring of scalars. -/
theorem mainRun_c {T : Type} [Ring T] (fmt : T → String) :
    (mainRun fmt).c = Vec3.ctor 0 0 0 := by
  simp [mainRun, Vec3.cross, Vec3.ctor]

/-- C16: for every vector `v`, every rendering `fmt` of its scalars and every
earlier content `s` of the stream, the output of `v` is `s` followed by exactly
`(`, the rendering of `x`, one space, the rendering of `y`, one space, the
rendering of `z`, and `)`. Where the scalar zero renders as `0`, a
default-constructed `Vec3` renders as `(0 0 0)`, and so does the cross product
`c` of `(1,1,1)` and `(-1,-1,-1)` in `main`, which is the third line `main`
writes to `std::cerr`. -/
theorem vec3_write_format {T : Type} [Ring T] (fmt : T → String) (s : String) (v : Vec3 T) :
    Vec3.write fmt s v = s ++ "(" ++ fmt v.x ++ " " ++ fmt v.y ++ " " ++ fmt v.z ++ ")" ∧
      (fmt 0 = "0" →
        Vec3.write fmt "" (Vec3.ctorDefault : Vec3 T) = "(0 0 0)" ∧
        Vec3.write fmt "" (mainRun fmt).c = "(0 0 0)" ∧
        (mainRun fmt).cerr =
          Vec3.write fmt "" (Vec3.ctor 1 1 1) ++ "\n" ++
            Vec3.write fmt "" (Vec3.ctor (-1) (-1) (-1)) ++ "\n" ++ "(0 0 0)" ++ "\n") := by
  refine ⟨Vec3.write_eq fmt s v, fun h0 => ?_⟩
  have hz : Vec3.write fmt "" (Vec3.ctor 0 0 0 : Vec3 T) = "(0 0 0)" := by
    simp only [Vec3.write_eq, Vec3.ctor, h0]
    decide
  refine ⟨hz, ?_, ?_⟩
  · rw [mainRun_c]
    exact hz
  · have hc : (Vec3.ctor 1 1 1 : Vec3 T).cross (Vec3.ctor (-1) (-1) (-1)) = Vec3.ctor 0 0 0 := by
      simp [Vec3.cross, Vec3.ctor]
    simp only [mainRun, hc]
    apply String.ext
    simp [Vec3.write_eq, Vec3.ctor, h0]

/-- The witness of C16: the integers rendered in decimal, and the vector
`(1, 2, 3)` written to an empty stream. -/
theorem vec3_write_format_witness :
    (fun n : ℤ => toString n) 0 = "0" ∧
      Vec3.write (fun n : ℤ => toString n) "" (Vec3.ctor 1 2 3) =
        "" ++ "(" ++ "1" ++ " " ++ "2" ++ " " ++ "3" ++ ")" ∧
      Vec3.write (fun n : ℤ => toString n) "" (Vec3.ctorDefault : Vec3 ℤ) = "(0 0 0)" ∧
      Vec3.write (fun n : ℤ => toString n) "" (mainRun fun n : ℤ => toString n).c = "(0 0 0)" :=
  ⟨by decide,
    (vec3_write_format (fun n : ℤ => toString n) "" (Vec3.ctor 1 2 3)).1,
    ((vec3_write_format (fun n : ℤ => toString n) "" (Vec3.ctor 1 2 3)).2 (by decide)).1,
    ((vec3_write_format (fun n : ℤ => toString n) "" (Vec3.ctor 1 2 3)).2 (by decide)).2.1⟩

/-! ## Floating-point scalars: where rounding breaks an exact identity

The inputs are whole numbers that `float` (or `double`) holds exactly; the
products of two of them need one digit more than the format has. -/

/-- The counterexample of C8, on `float`: for `a = (3, 0, 4099)` and `r = 4097`
the vector `a * r` is `(12291, 0, 16793604)` (the product `16793603` is rounded),
`a.cross(a * r)` is `(0, -4, 0)` and `(a * r).cross(a)` is `(0, 4, 0)`, not
`(0,0,0)`. On `double` the same happens for `a = (3, 0, 134217731)` and
`r = 134217729`, with `-8` and `8`. -/
theorem vec3_cross_parallel_float :
    (Vec3.ctor 3 0 4099 : Vec3 (Flt binary32)).scale 4097 = Vec3.ctor 12291 0 16793604 ∧
      (Vec3.ctor 3 0 4099 : Vec3 (Flt binary32)).cross
          ((Vec3.ctor 3 0 4099 : Vec3 (Flt binary32)).scale 4097) = Vec3.ctor 0 (-4) 0 ∧
      ((Vec3.ctor 3 0 4099 : Vec3 (Flt binary32)).scale 4097).cross
          (Vec3.ctor 3 0 4099) = Vec3.ctor 0 4 0 ∧
      (Vec3.ctor 3 0 4099 : Vec3 (Flt binary32)).cross
          ((Vec3.ctor 3 0 4099 : Vec3 (Flt binary32)).scale 4097) ≠ Vec3.ctorDefault ∧
      ((Vec3.ctor 3 0 4099 : Vec3 (Flt binary32)).scale 4097).cross
          (Vec3.ctor 3 0 4099) ≠ Vec3.ctorDefault ∧
      (Vec3.ctor 3 0 134217731 : Vec3 (Flt binary64)).cross
          ((Vec3.ctor 3 0 134217731 : Vec3 (Flt binary64)).scale 134217729) =
        Vec3.ctor 0 (-8) 0 ∧
      (Vec3.ctor 3 0 134217731 : Vec3 (Flt binary64)).cross
          ((Vec3.ctor 3 0 134217731 : Vec3 (Flt binary64)).scale 134217729) ≠
        Vec3.ctorDefault := by
  decide

/-- The counterexample of C14, on `float`: for `a = (4097, 1, 1)` and
`b = (0, 1, 4097)` the cross product is `(4096, -16785408, 4097)` (the product
`4097 * 4097 = 16785409` is rounded) and `a.dotProduct(a.cross(b))` is `1`, not
`0`. On `double` the same happens with `134217729` in the place of `4097`. -/
theorem vec3_cross_orthogonal_float :
    (Vec3.ctor 4097 1 1 : Vec3 (Flt binary32)).cross (Vec3.ctor 0 1 4097) =
        Vec3.ctor 4096 (-16785408) 4097 ∧
      (Vec3.ctor 4097 1 1 : Vec3 (Flt binary32)).dotProduct
          ((Vec3.ctor 4097 1 1 : Vec3 (Flt binary32)).cross (Vec3.ctor 0 1 4097)) = 1 ∧
      (Vec3.ctor 4097 1 1 : Vec3 (Flt binary32)).dotProduct
          ((Vec3.ctor 4097 1 1 : Vec3 (Flt binary32)).cross (Vec3.ctor 0 1 4097)) ≠ 0 ∧
      (Vec3.ctor 134217729 1 1 : Vec3 (Flt binary64)).dotProduct
          ((Vec3.ctor 134217729 1 1 : Vec3 (Flt binary64)).cross
            (Vec3.ctor 0 1 134217729)) = 1 ∧
      (Vec3.ctor 134217729 1 1 : Vec3 (Flt binary64)).dotProduct
          ((Vec3.ctor 134217729 1 1 : Vec3 (Flt binary64)).cross
            (Vec3.ctor 0 1 134217729)) ≠ 0 := by
  decide

/-- The counterexample of C15, on `float`: for `a = (0, 0, 4097)`,
`b = (0, 2, 2)`, `c = (1, 1, 4097)` and `r = 2`, `(a * r + b).dotProduct(c)` is
`33579016` and `r * a.dotProduct(c) + b.dotProduct(c)` is `33579012`. On
`double`, for `a = (3, 0, 1)`, `b = (1, 0, 0)`, `c = (134217731, 0, 0)` and
`r = 134217729` the two sides differ as well. -/
theorem vec3_dotProduct_linear_float :
    (((Vec3.ctor 0 0 4097 : Vec3 (Flt binary32)).scale 2).add (Vec3.ctor 0 2 2)).dotProduct
        (Vec3.ctor 1 1 4097) = 33579016 ∧
      (2 : Flt binary32) * (Vec3.ctor 0 0 4097 : Vec3 (Flt binary32)).dotProduct
          (Vec3.ctor 1 1 4097) +
        (Vec3.ctor 0 2 2 : Vec3 (Flt binary32)).dotProduct (Vec3.ctor 1 1 4097) = 33579012 ∧
      (((Vec3.ctor 0 0 4097 : Vec3 (Flt binary32)).scale 2).add (Vec3.ctor 0 2 2)).dotProduct
          (Vec3.ctor 1 1 4097) ≠
        (2 : Flt binary32) * (Vec3.ctor 0 0 4097 : Vec3 (Flt binary32)).dotProduct
            (Vec3.ctor 1 1 4097) +
          (Vec3.ctor 0 2 2 : Vec3 (Flt binary32)).dotProduct (Vec3.ctor 1 1 4097) ∧
      (((Vec3.ctor 3 0 1 : Vec3 (Flt binary64)).scale 134217729).add
          (Vec3.ctor 1 0 0)).dotProduct (Vec3.ctor 134217731 0 0) ≠
        (134217729 : Flt binary64) * (Vec3.ctor 3 0 1 : Vec3 (Flt binary64)).dotProduct
            (Vec3.ctor 134217731 0 0) +
          (Vec3.ctor 1 0 0 : Vec3 (Flt binary64)).dotProduct (Vec3.ctor 134217731 0 0) := by
  decide

/-- The counterexample of C17, on `float`: for `a = (0, 4097, 1)` and
`b = (0, 1, 0)` the cross product is `(-1, 0, 0)`, so
`a.cross(b).dotProduct(a.cross(b))` is `1`, while
`a.dotProduct(a) * b.dotProduct(b) - a.dotProduct(b) * a.dotProduct(b)` is
`16785408 - 16785408 = 0`. On `double` the same happens with `134217729` in the
place of `4097`. -/
theorem vec3_cross_lagrange_float :
    ((Vec3.ctor 0 4097 1 : Vec3 (Flt binary32)).cross (Vec3.ctor 0 1 0)).dotProduct
        ((Vec3.ctor 0 4097 1 : Vec3 (Flt binary32)).cross (Vec3.ctor 0 1 0)) = 1 ∧
      (Vec3.ctor 0 4097 1 : Vec3 (Flt binary32)).dotProduct (Vec3.ctor 0 4097 1) *
          (Vec3.ctor 0 1 0 : Vec3 (Flt binary32)).dotProduct (Vec3.ctor 0 1 0) -
        (Vec3.ctor 0 4097 1 : Vec3 (Flt binary32)).dotProduct (Vec3.ctor 0 1 0) *
          (Vec3.ctor 0 4097 1 : Vec3 (Flt binary32)).dotProduct (Vec3.ctor 0 1 0) = 0 ∧
      ((Vec3.ctor 0 4097 1 : Vec3 (Flt binary32)).cross (Vec3.ctor 0 1 0)).dotProduct
          ((Vec3.ctor 0 4097 1 : Vec3 (Flt binary32)).cross (Vec3.ctor 0 1 0)) ≠
        (Vec3.ctor 0 4097 1 : Vec3 (Flt binary32)).dotProduct (Vec3.ctor 0 4097 1) *
            (Vec3.ctor 0 1 0 : Vec3 (Flt binary32)).dotProduct (Vec3.ctor 0 1 0) -
          (Vec3.ctor 0 4097 1 : Vec3 (Flt binary32)).dotProduct (Vec3.ctor 0 1 0) *
            (Vec3.ctor 0 4097 1 : Vec3 (Flt binary32)).dotProduct (Vec3.ctor 0 1 0) ∧
      ((Vec3.ctor 0 134217729 1 : Vec3 (Flt binary64)).cross (Vec3.ctor 0 1 0)).dotProduct
          ((Vec3.ctor 0 134217729 1 : Vec3 (Flt binary64)).cross (Vec3.ctor 0 1 0)) ≠
        (Vec3.ctor 0 134217729 1 : Vec3 (Flt binary64)).dotProduct
              (Vec3.ctor 0 134217729 1) *
            (Vec3.ctor 0 1 0 : Vec3 (Flt binary64)).dotProduct (Vec3.ctor 0 1 0) -
          (Vec3.ctor 0 134217729 1 : Vec3 (Flt binary64)).dotProduct (Vec3.ctor 0 1 0) *
            (Vec3.ctor 0 134217729 1 : Vec3 (Flt binary64)).dotProduct (Vec3.ctor 0 1 0) := by
  decide
